/-
Verification of the WebTicker history merge/dedup engine and the windowed
aggregation/ranking engine (TKB-WebTicker.py, webticker_lib.py).

Shallow embedding notes:
* Python `datetime` values are modelled by `Timestamp` (UTC epoch seconds plus
  microseconds).  `isoformat` truncates the microseconds and renders the
  ISO-8601 string "YYYY-MM-DDTHH:MM:SSZ"; since that rendering is injective and
  order-isomorphic in the epoch second (string lexicographic order equals
  chronological order, as the spec itself notes), the serialized timestamp is
  modelled by its epoch second (an `Int`).
* Python floats are modelled by exact rationals; `round(x, n)` is modelled by
  round-half-to-even on the rational, matching CPython's `round`.
* Python `set`s used only for membership/insert are modelled as lists with
  membership tests; `dict`s (insertion-ordered) as association lists.
* Python's stable `list.sort`/`sorted` is modelled by `List.insertionSort`,
  which is stable and therefore produces the identical list for a total
  preorder on the sort key.
-/
import Mathlib

/-! ## Time model -/

/-- A UTC `datetime`: seconds since the epoch plus microseconds. -/
structure Timestamp where
  sec : Int
  usec : Nat
  deriving DecidableEq, Repr

/-- Python `datetime` comparison `a <= b` (lexicographic in seconds then
microseconds). -/
def tsLe (a b : Timestamp) : Prop :=
  a.sec < b.sec ∨ (a.sec = b.sec ∧ a.usec ≤ b.usec)

instance (a b : Timestamp) : Decidable (tsLe a b) :=
  inferInstanceAs (Decidable (a.sec < b.sec ∨ (a.sec = b.sec ∧ a.usec ≤ b.usec)))

/-- `timedelta(days=d)` subtraction: `now - timedelta(days=d)`. -/
def tsSubDays (t : Timestamp) (d : Nat) : Timestamp :=
  { sec := t.sec - d * 86400, usec := t.usec }

/-- `webticker_lib.isoformat`: `value.astimezone(utc).replace(microsecond=0)
.isoformat().replace("+00:00","Z")`.  Modelled as the truncated epoch second
standing in for the ISO-8601 string (injective and order-isomorphic). -/
def isoformat (t : Timestamp) : Int := t.sec

/-! ## Python `round` on exact rationals -/

/-- CPython `round` to an integer: round half to even. -/
def roundHalfEven (q : ℚ) : ℤ :=
  let n := ⌊q⌋
  let r := q - n
  if r < 1/2 then n
  else if 1/2 < r then n + 1
  else if n % 2 = 0 then n else n + 1

/-- Python `round(q, ndigits)`. -/
def pyRound (ndigits : Nat) (q : ℚ) : ℚ :=
  (roundHalfEven (q * 10 ^ ndigits) : ℚ) / 10 ^ ndigits

/-! ## String helpers for the exit classifier -/

/-- `pat` is a prefix of `text` (on character lists). -/
def startsWithChars : List Char → List Char → Bool
  | _, [] => true
  | [], _ :: _ => false
  | c :: cs, p :: ps => c == p && startsWithChars cs ps

/-- Python `pat in text` substring test (on character lists). -/
def containsSub : List Char → List Char → Bool
  | [], pat => pat.isEmpty
  | c :: cs, pat => startsWithChars (c :: cs) pat || containsSub cs pat

/-- Python `str.strip()` followed by `str.lower()` on a character list. -/
def stripLower (s : List Char) : List Char :=
  (((s.dropWhile Char.isWhitespace).reverse.dropWhile Char.isWhitespace).reverse).map
    Char.toLower

/-- Python truthiness of an optional string: `None` and `""` are falsy. -/
def truthyStr : Option String → Bool
  | none => false
  | some s => !(s = "")

/-- Python `a or b` on optional strings (`None`/`""` falsy). -/
def pyOrStr (a b : Option String) : Option String :=
  if truthyStr a then a else b

/-! ## Raw log entries (JSON payloads from `load_state_entries`)

A raw field value is abstracted by its semantic class:
* numeric fields (`volume`, `profit`, `balance`, `equity`, `floating`) carry a
  `PyVal` — a JSON number, a JSON string, or JSON `null`;
* timestamp fields (`opened_at`, `closed_at`, `timestamp`) carry a `TimeVal` —
  a string that `datetime.fromisoformat` parses (abstracted by the instant it
  denotes), a non-empty string it rejects, the empty string, or `null`;
* an outer `Option` distinguishes an absent key from a present one.
-/

/-- A raw JSON value in a numeric field. -/
inductive PyVal where
  | num (q : ℚ)
  | str (s : String)
  | null
  deriving DecidableEq, Repr

/-- A raw JSON value in a timestamp field, abstracted by how
`parse_iso_datetime` treats it. -/
inductive TimeVal where
  | iso (t : Timestamp)
  | bad (s : String)
  | empty
  | null
  deriving DecidableEq, Repr

/-- One payload from `load_state_entries`, with the `_log_timestamp` the
loader attaches from the bracketed log-line prefix.  For `ticket`/`symbol`
the outer `Option` is key-presence and the inner one is `null` vs. string. -/
structure RawEntry where
  ticket : Option (Option String) := none
  symbol : Option (Option String) := none
  volume : Option PyVal := none
  profit : Option PyVal := none
  order_type : Option String := none
  direction : Option String := none
  side : Option String := none
  comment : Option String := none
  label : Option String := none
  opened_at : Option TimeVal := none
  closed_at : Option TimeVal := none
  tp_label : Option String := none
  sl_label : Option String := none
  timestamp : Option TimeVal := none
  balance : Option PyVal := none
  equity : Option PyVal := none
  floating : Option PyVal := none
  log_timestamp : Timestamp
  deriving DecidableEq, Repr

/-! ### Python `float()` on a raw value -/

def digitsToNat (ds : List Char) : Nat :=
  ds.foldl (fun n c => 10 * n + (c.toNat - 48)) 0

def allDigits (l : List Char) : Bool :=
  !l.isEmpty && l.all Char.isDigit

def parseMantissa (m : List Char) : Option ℚ :=
  match m.splitOn '.' with
  | [ip] => if allDigits ip then some (digitsToNat ip : ℚ) else none
  | [ip, fp] =>
    if ip.all Char.isDigit && fp.all Char.isDigit && !(ip.isEmpty && fp.isEmpty) then
      some ((digitsToNat ip : ℚ) + (digitsToNat fp : ℚ) / 10 ^ fp.length)
    else none
  | _ => none

def parseExp (e : List Char) : Option ℤ :=
  match e with
  | '-' :: rest => if allDigits rest then some (-(digitsToNat rest : ℤ)) else none
  | '+' :: rest => if allDigits rest then some (digitsToNat rest : ℤ) else none
  | _ => if allDigits e then some (digitsToNat e : ℤ) else none

/-- The numeric value `float(s)` accepts for a decimal literal (optional sign,
decimal digits with optional fraction and exponent); other strings raise
`ValueError`, modelled as `none`.  (The `inf`/`nan` literals are outside the
rational model and not produced by the log writer.) -/
def strToRat (s : String) : Option ℚ :=
  let t :=
    (((s.data.dropWhile Char.isWhitespace).reverse.dropWhile
      Char.isWhitespace).reverse).map Char.toLower
  let signed : ℚ × List Char :=
    match t with
    | '-' :: rest => (-1, rest)
    | '+' :: rest => (1, rest)
    | _ => (1, t)
  match signed.2.splitOn 'e' with
  | [m] => (parseMantissa m).map (signed.1 * ·)
  | [m, e] => do
      let mv ← parseMantissa m
      let ev ← parseExp e
      pure (signed.1 * mv * (10 : ℚ) ^ ev)
  | _ => none

/-- Python `float(v)`: a number passes through, a string is parsed, `None`
raises `TypeError` (`none`). -/
def pyFloat : PyVal → Option ℚ
  | .num q => some q
  | .str s => strToRat s
  | .null => none

/-- `float(entry.get(field, 0.0))`. -/
def pyFloatField (v : Option PyVal) : Option ℚ :=
  pyFloat (v.getD (.num 0))

/-- `webticker_lib.parse_iso_datetime(entry.get(field))`: absent key, `null`
and `""` are falsy and give `None`; a parseable ISO string gives its instant;
a malformed non-empty string raises (`none` at the outer level). -/
def parseIsoField : Option TimeVal → Option (Option Timestamp)
  | none => some none
  | some .null => some none
  | some .empty => some none
  | some (.iso t) => some (some t)
  | some (.bad _) => none

/-- `str(entry.get("ticket"))`: a missing key or `null` becomes the literal
string `"None"`; a string passes through.  (Numeric tickets are abstracted by
their decimal rendering, i.e. modelled directly as that string.) -/
def pyStrOfTicket : Option (Option String) → String
  | none => "None"
  | some none => "None"
  | some (some s) => s

/-! ## Canonical records -/

/-- Output of `normalize_trade` (input to the merge engine). -/
structure NormTrade where
  ticket : String
  symbol : Option String
  volume : ℚ
  profit : ℚ
  order_type : Option String
  comment : Option String
  opened_at : Option Timestamp
  closed_at : Timestamp
  tp_label : Option String
  sl_label : Option String
  deriving DecidableEq, Repr

/-- Output of `normalize_snapshot`. -/
structure NormSnap where
  timestamp : Timestamp
  balance : ℚ
  equity : ℚ
  floating : ℚ
  deriving DecidableEq, Repr

/-- `webticker_lib.normalize_trade`; `none` models an uncaught exception
(`float` on a non-numeric value, `fromisoformat` on a malformed string). -/
def normalize_trade (e : RawEntry) : Option NormTrade := do
  let closedOpt ← parseIsoField e.closed_at
  let openedAt ← parseIsoField e.opened_at
  let volume ← pyFloatField e.volume
  let profit ← pyFloatField e.profit
  pure
    { ticket := pyStrOfTicket e.ticket
      symbol := e.symbol.getD (some "UNKNOWN")
      volume := volume
      profit := profit
      order_type := pyOrStr (pyOrStr e.order_type e.direction) e.side
      comment := pyOrStr e.comment e.label
      opened_at := openedAt
      closed_at := closedOpt.getD e.log_timestamp
      tp_label := e.tp_label
      sl_label := e.sl_label }

/-- `webticker_lib.normalize_snapshot`. -/
def normalize_snapshot (e : RawEntry) : Option NormSnap := do
  let stampOpt ← parseIsoField e.timestamp
  let balance ← pyFloatField e.balance
  let equity ← pyFloatField e.equity
  let floating ← pyFloatField e.floating
  pure
    { timestamp := stampOpt.getD e.log_timestamp
      balance := balance
      equity := equity
      floating := floating }

/-- A stored trade record (JSON form inside the history file); `closed_at` and
`opened_at` hold serialized ISO timestamps (modelled by their epoch second). -/
structure TradeRec where
  ticket : String
  symbol : Option String
  volume : ℚ
  profit : ℚ
  order_type : Option String
  comment : Option String
  opened_at : Option Int
  closed_at : Int
  tp_label : Option String
  sl_label : Option String
  deriving DecidableEq, Repr

/-- A stored snapshot record. -/
structure SnapRec where
  timestamp : Int
  balance : ℚ
  equity : ℚ
  floating : ℚ
  deriving DecidableEq, Repr

/-- `webticker_lib.serialize_trade` on a normalized trade (whose `opened_at`
and `closed_at` are `datetime`s, so the `isinstance` branch is taken). -/
def serialize_trade (t : NormTrade) : TradeRec :=
  { ticket := t.ticket
    symbol := t.symbol
    volume := pyRound 5 t.volume
    profit := pyRound 5 t.profit
    order_type := t.order_type
    comment := t.comment
    opened_at := t.opened_at.map isoformat
    closed_at := isoformat t.closed_at
    tp_label := t.tp_label
    sl_label := t.sl_label }

/-- `webticker_lib.serialize_snapshot` on a normalized snapshot. -/
def serialize_snapshot (s : NormSnap) : SnapRec :=
  { timestamp := isoformat s.timestamp
    balance := pyRound 2 s.balance
    equity := pyRound 2 s.equity
    floating := pyRound 2 s.floating }

/-- `webticker_lib.HISTORY_VERSION`. -/
def HISTORY_VERSION : Nat := 1

/-- The persisted history aggregate. -/
structure History where
  version : Nat
  trades : List TradeRec
  snapshots : List SnapRec
  deriving DecidableEq, Repr

/-! ## Merge engine (`TKB-WebTicker.merge_history`)

The two dedup loops share one shape: serialize the incoming record, compute
its key (the serialized trade keeps the normalized trade's string ticket
verbatim, so keying on the serialized record equals the source's
`str(trade.get("ticket"))` on a normalized trade), skip it when the key is
"falsy" or already seen, otherwise append and remember the key.  The Python
`set` is modelled as the list of seen keys. -/
def mergeLoop (ser : α → β) (keyOf : β → κ) (badKey : κ → Bool) [DecidableEq κ] :
    List β → List κ → Bool → List α → List β × List κ × Bool
  | acc, seen, app, [] => (acc, seen, app)
  | acc, seen, app, x :: rest =>
    let r := ser x
    let k := keyOf r
    if badKey k = true ∨ k ∈ seen then
      mergeLoop ser keyOf badKey acc seen app rest
    else
      mergeLoop ser keyOf badKey (acc ++ [r]) (k :: seen) true rest

/-- Sort relation of `history["trades"].sort(key=...closed_at)`. -/
def trade_le (a b : TradeRec) : Prop := a.closed_at ≤ b.closed_at

/-- Sort relation of `history["snapshots"].sort(key=...timestamp)`. -/
def snap_le (a b : SnapRec) : Prop := a.timestamp ≤ b.timestamp

instance : DecidableRel trade_le := fun a b =>
  inferInstanceAs (Decidable (a.closed_at ≤ b.closed_at))

instance : DecidableRel snap_le := fun a b =>
  inferInstanceAs (Decidable (a.timestamp ≤ b.timestamp))

instance : IsTotal TradeRec trade_le := ⟨fun a b => Int.le_total a.closed_at b.closed_at⟩

instance : IsTrans TradeRec trade_le := ⟨fun _ _ _ h h' => Int.le_trans h h'⟩

instance : IsTotal SnapRec snap_le := ⟨fun a b => Int.le_total a.timestamp b.timestamp⟩

instance : IsTrans SnapRec snap_le := ⟨fun _ _ _ h h' => Int.le_trans h h'⟩

/-- `TKB-WebTicker.merge_history` (the in-place mutation is modelled by
returning the new history).  The snapshot loop's `if not stamp` guard can
never fire — a serialized ISO timestamp is a non-empty string — so its
`badKey` is constantly `false`; the trade guard `if not ticket` fires exactly
on the empty string.  `list.sort` (stable) is modelled by `insertionSort`,
which is stable, and runs only when something was appended. -/
def merge_history (h : History) (ts : List NormTrade) (ss : List NormSnap) : History :=
  let tl := mergeLoop serialize_trade TradeRec.ticket (fun k => k == "")
    h.trades (h.trades.map TradeRec.ticket) false ts
  let trades' := if tl.2.2 then List.insertionSort trade_le tl.1 else tl.1
  let sl := mergeLoop serialize_snapshot SnapRec.timestamp (fun _ => false)
    h.snapshots (h.snapshots.map SnapRec.timestamp) false ss
  let snaps' := if sl.2.2 then List.insertionSort snap_le sl.1 else sl.1
  { version := HISTORY_VERSION, trades := trades', snapshots := snaps' }

/-! ## Aggregation engine -/

/-- A trade as `_materialize_trades` rebuilds it from a stored record:
`closed_at` is a parsed `datetime` again (always present — records without it
are skipped), numeric fields are floats, everything else is optional. -/
structure MTrade where
  ticket : Option String := none
  symbol : Option String := none
  volume : ℚ := 0
  profit : ℚ := 0
  order_type : Option String := none
  comment : Option String := none
  opened_at : Option Timestamp := none
  closed_at : Timestamp
  tp_label : Option String := none
  sl_label : Option String := none
  exit_reason : Option String := none
  deriving DecidableEq, Repr

/-- The dict returned by `summarize_trades`. -/
structure Summary where
  profit : ℚ
  trades : Nat
  wins : Nat
  losses : Nat
  win_rate : ℚ
  deriving DecidableEq, Repr

/-- `TKB-WebTicker.summarize_trades`. -/
def summarize_trades (ts : List MTrade) : Summary :=
  if ts.isEmpty then { profit := 0, trades := 0, wins := 0, losses := 0, win_rate := 0 }
  else
    let profit := (ts.map MTrade.profit).sum
    let wins := ts.countP (fun t => decide (0 < t.profit))
    let losses := ts.countP (fun t => decide (t.profit < 0))
    let total := ts.length
    { profit := pyRound 2 profit
      trades := total
      wins := wins
      losses := losses
      win_rate := if total ≠ 0 then pyRound 2 ((wins : ℚ) / (total : ℚ) * 100) else 0 }

/-- `TKB-WebTicker._canonical_side`. -/
def canonical_side (ot : Option String) : String :=
  match ot with
  | none => ""
  | some s =>
    if s = "" then ""
    else
      let side := s.data.map Char.toUpper
      if containsSub side "BUY".data then "BUY"
      else if containsSub side "SELL".data then "SELL"
      else String.mk side

def TP_REASON_HINTS : List (List Char) :=
  ["deal_reason_tp".data, "tp_hit".data, "takeprofit".data, "take profit".data,
    "target_tp".data]

def SL_REASON_HINTS : List (List Char) :=
  ["deal_reason_sl".data, "sl_hit".data, "stoploss".data, "stop loss".data,
    "target_sl".data]

def TP_COMMENT_HINTS : List (List Char) :=
  ["[tp".data, " tp".data, "tp ".data, "tp:".data, "tp-".data, "tp hit".data,
    "take profit".data]

def SL_COMMENT_HINTS : List (List Char) :=
  ["[sl".data, " sl".data, "sl ".data, "sl:".data, "sl-".data, "sl hit".data,
    "stop loss".data]

/-- `TKB-WebTicker._contains_hint` (with `_normalize_text` inlined): falsy
values match nothing, otherwise strip + lowercase and test substrings. -/
def contains_hint (value : Option String) (hints : List (List Char)) : Bool :=
  match value with
  | none => false
  | some s =>
    if s = "" then false
    else hints.any (fun h => containsSub (stripLower s.data) h)

/-- `TKB-WebTicker.determine_exit_type`; the argument is `none` for the
falsy-trade guard (`None` / empty dict). -/
def determine_exit_type (t : Option MTrade) : String :=
  match t with
  | none => "manual"
  | some tr =>
    if truthyStr tr.tp_label then "tp"
    else if contains_hint tr.exit_reason TP_REASON_HINTS then "tp"
    else if contains_hint tr.comment TP_COMMENT_HINTS then "tp"
    else if truthyStr tr.sl_label then "sl"
    else if contains_hint tr.exit_reason SL_REASON_HINTS then "sl"
    else if contains_hint tr.comment SL_COMMENT_HINTS then "sl"
    else "manual"

/-- `EXIT_LABELS.get(exit_type, EXIT_LABELS["manual"])`. -/
def build_exit_label (et : String) : String :=
  if et = "tp" then "Exit: TP"
  else if et = "sl" then "Exit: SL"
  else "Exit Manual"

/-- The dict built by `summarize_single_trade`; `comment = none` models the
key being popped when `include_comment` is false. -/
structure TradeSummary where
  ticket : Option String
  symbol : Option String
  profit : ℚ
  volume : ℚ
  order_type : String
  closed_at : Option Int
  exit : String
  exit_type : String
  comment : Option (Option String)
  deriving DecidableEq, Repr

/-- `TKB-WebTicker.summarize_single_trade` (a materialized trade's
`closed_at` datetime is always truthy, so that branch always serializes). -/
def summarize_single_trade (includeComment : Bool) (t : Option MTrade) :
    Option TradeSummary :=
  match t with
  | none => none
  | some tr =>
    let et := determine_exit_type (some tr)
    some
      { ticket := tr.ticket
        symbol := tr.symbol
        profit := pyRound 2 tr.profit
        volume := pyRound 2 tr.volume
        order_type := canonical_side tr.order_type
        closed_at := some (isoformat tr.closed_at)
        exit := build_exit_label et
        exit_type := et
        comment := if includeComment then some tr.comment else none }

/-- Python `max(l, key=key, default=None)`: the fold keeps the current value
on ties, so the first element with maximal key wins. -/
def pyMaxBy (key : α → ℚ) : List α → Option α
  | [] => none
  | x :: xs => some (xs.foldl (fun b t => if key b < key t then t else b) x)

/-- Python `min(l, key=key, default=None)`: first element with minimal key. -/
def pyMinBy (key : α → ℚ) : List α → Option α
  | [] => none
  | x :: xs => some (xs.foldl (fun b t => if key t < key b then t else b) x)

/-- One value of the `windows` dict. -/
structure WindowStats where
  summary : Summary
  best_trade : Option TradeSummary
  worst_trade : Option TradeSummary
  deriving DecidableEq, Repr

/-- The `WINDOWS` table (label, day span). -/
def WINDOWS : List (String × Nat) := [("7d", 7), ("30d", 30), ("365d", 365)]

/-- The body of `build_windows`' loop for one window span. -/
def build_window (days : Nat) (now : Timestamp) (trades : List MTrade) :
    WindowStats :=
  let cutoff := tsSubDays now days
  let window_trades := trades.filter (fun t => decide (tsLe cutoff t.closed_at))
  { summary := summarize_trades window_trades
    best_trade := summarize_single_trade false (pyMaxBy MTrade.profit window_trades)
    worst_trade := summarize_single_trade false (pyMinBy MTrade.profit window_trades) }

/-- `TKB-WebTicker.build_windows` (`now` is passed explicitly; the insertion-
ordered dict is an association list). -/
def build_windows (now : Timestamp) (trades : List MTrade) :
    List (String × WindowStats) :=
  WINDOWS.map (fun kv => (kv.1, build_window kv.2 now trades))

/-! ## Per-symbol ranking (`build_symbol_lists`) -/

/-- One bucket of the per-symbol stats dict.  The Python dict has no `rank`
key until `build_symbol_lists` assigns it; the placeholder is `0`. -/
structure SymbolStat where
  symbol : Option String
  profit : ℚ
  trades : Nat
  wins : Nat
  losses : Nat
  rank : Nat
  deriving DecidableEq, Repr

/-- The per-trade bucket update inside `build_symbol_lists`' loop. -/
def bumpStat (t : MTrade) (s : SymbolStat) : SymbolStat :=
  let s' := { s with profit := s.profit + t.profit, trades := s.trades + 1 }
  if 0 < t.profit then { s' with wins := s'.wins + 1 }
  else if t.profit < 0 then { s' with losses := s'.losses + 1 }
  else s'

/-- `stats.setdefault(symbol, fresh)` followed by the bucket update, on the
insertion-ordered dict modelled as an association list.  On a materialized
trade the `"symbol"` key is always present, so `trade.get("symbol", "UNKWN")`
is just its (possibly `None`) value. -/
def addTradeStat : List SymbolStat → MTrade → List SymbolStat
  | [], t =>
    [bumpStat t
      { symbol := t.symbol, profit := 0, trades := 0, wins := 0, losses := 0, rank := 0 }]
  | s :: rest, t =>
    if s.symbol = t.symbol then bumpStat t s :: rest
    else s :: addTradeStat rest t

/-- `for idx, entry in enumerate(ordered, 1): entry["rank"] = idx`. -/
def assignRanks : Nat → List SymbolStat → List SymbolStat
  | _, [] => []
  | i, s :: rest => { s with rank := i } :: assignRanks (i + 1) rest

/-- Sort relation of `sorted(..., key=profit, reverse=True)` (stable
descending by profit). -/
def symbolStat_ge (a b : SymbolStat) : Prop := b.profit ≤ a.profit

/-- Sort relation of `sorted(bottom_slice, key=rank)`. -/
def rankStat_le (a b : SymbolStat) : Prop := a.rank ≤ b.rank

instance : DecidableRel symbolStat_ge := fun a b =>
  inferInstanceAs (Decidable (b.profit ≤ a.profit))

instance : DecidableRel rankStat_le := fun a b =>
  inferInstanceAs (Decidable (a.rank ≤ b.rank))

/-- `TKB-WebTicker.build_symbol_lists`.  `ordered[-5:]` is
`drop (length - 5)` (truncated subtraction gives the whole list when fewer
than 5 groups exist, as in Python). -/
def build_symbol_lists (trades : List MTrade) :
    List SymbolStat × List SymbolStat :=
  let stats := trades.foldl addTradeStat []
  let ordered := List.insertionSort symbolStat_ge stats
  let ranked := assignRanks 1 ordered
  let top := ranked.take 5
  let bottomSlice := ranked.drop (ranked.length - 5)
  let bottom := List.insertionSort rankStat_le bottomSlice
  (top, bottom)

/-! ## Reference definitions used by the claims -/

/-- Reference overall summary, following the spec's words: count, sum of
profit, win count (`profit > 0`), loss count (`profit < 0`), win rate =
wins/count×100 (0 when count is 0), profit and win rate rounded to two
decimals. -/
def summarize_trades_reference (ts : List MTrade) : Summary :=
  { profit := pyRound 2 (ts.map MTrade.profit).sum
    trades := ts.length
    wins := ts.countP (fun t => decide (0 < t.profit))
    losses := ts.countP (fun t => decide (t.profit < 0))
    win_rate :=
      if ts.length = 0 then 0
      else pyRound 2 ((ts.countP (fun t => decide (0 < t.profit)) : ℚ) / ts.length * 100) }

/-- `m` is the first element of `l` attaining the maximal `key` value. -/
def IsFirstMaxBy (key : α → ℚ) (l : List α) (m : α) : Prop :=
  ∃ l1 l2, l = l1 ++ m :: l2 ∧ (∀ x ∈ l1, key x < key m) ∧ ∀ x ∈ l, key x ≤ key m

/-- `m` is the first element of `l` attaining the minimal `key` value. -/
def IsFirstMinBy (key : α → ℚ) (l : List α) (m : α) : Prop :=
  ∃ l1 l2, l = l1 ++ m :: l2 ∧ (∀ x ∈ l1, key m < key x) ∧ ∀ x ∈ l, key m ≤ key x

/-- A numeric field the normalizer handles without raising: absent, or a
JSON number. -/
def numFieldOk : Option PyVal → Bool
  | none => true
  | some (.num _) => true
  | some (.str _) => false
  | some .null => false

/-- A timestamp field `parse_iso_datetime` handles without raising: anything
but a malformed non-empty string. -/
def timeFieldOk : Option TimeVal → Bool
  | some (.bad _) => false
  | _ => true

/-- A timestamp field that is falsy for `parse_iso_datetime` (missing key,
`null`, or the empty string) and so triggers the log-line fallback. -/
def timeFieldFalsy : Option TimeVal → Bool
  | none => true
  | some .null => true
  | some .empty => true
  | some (.iso _) => false
  | some (.bad _) => false

/-- A materialized trade with the given close time and profit (remaining
fields at their defaults); used for the claims' concrete examples. -/
def exampleTrade (c : Timestamp) (p : ℚ) : MTrade :=
  { closed_at := c, profit := p }

/-- A stored trade record with the given ticket, profit and serialized close
second (remaining fields empty); fixture for concrete examples. -/
def mkTradeRec (tk : String) (p : ℚ) (c : Int) : TradeRec :=
  { ticket := tk, symbol := none, volume := 0, profit := p, order_type := none,
    comment := none, opened_at := none, closed_at := c, tp_label := none,
    sl_label := none }

/-- A normalized trade with the given ticket, profit and close time. -/
def mkNormTrade (tk : String) (p : ℚ) (c : Timestamp) : NormTrade :=
  { ticket := tk, symbol := none, volume := 0, profit := p, order_type := none,
    comment := none, opened_at := none, closed_at := c, tp_label := none,
    sl_label := none }

/-- A stored snapshot record with all money fields equal to `b`. -/
def mkSnapRec (t : Int) (b : ℚ) : SnapRec :=
  { timestamp := t, balance := b, equity := b, floating := b }

/-- A normalized snapshot with all money fields equal to `b`. -/
def mkNormSnap (t : Timestamp) (b : ℚ) : NormSnap :=
  { timestamp := t, balance := b, equity := b, floating := b }

/-! ## Lemmas about the dedup loop -/

section MergeLoopLemmas

variable {α β κ : Type} [DecidableEq κ]
variable (ser : α → β) (keyOf : β → κ) (badKey : κ → Bool)

/-- The loop only appends: the result extends `acc` by records whose keys
were neither bad nor already seen. -/
lemma mergeLoop_acc_spec (xs : List α) :
    ∀ (acc : List β) (seen : List κ) (app : Bool),
      ∃ extra : List β,
        (mergeLoop ser keyOf badKey acc seen app xs).1 = acc ++ extra ∧
        ∀ r ∈ extra, keyOf r ∉ seen ∧ badKey (keyOf r) = false := by
  induction xs with
  | nil => intro acc seen app; exact ⟨[], by simp [mergeLoop], by simp⟩
  | cons x rest ih =>
    intro acc seen app
    by_cases h : badKey (keyOf (ser x)) = true ∨ keyOf (ser x) ∈ seen
    · simpa [mergeLoop, if_pos h] using ih acc seen app
    · obtain ⟨extra, he, hp⟩ := ih (acc ++ [ser x]) (keyOf (ser x) :: seen) true
      have h' := h
      push_neg at h'
      refine ⟨ser x :: extra, ?_, ?_⟩
      · simp only [mergeLoop, if_neg h]
        simpa using he
      · intro r hr
        rcases List.mem_cons.mp hr with rfl | hr
        · exact ⟨h'.2, by simpa using h'.1⟩
        · exact ⟨fun hm => (hp r hr).1 (List.mem_cons_of_mem _ hm), (hp r hr).2⟩

/-- The seen set only grows. -/
lemma mergeLoop_seen_mono (xs : List α) :
    ∀ (acc : List β) (seen : List κ) (app : Bool),
      seen ⊆ (mergeLoop ser keyOf badKey acc seen app xs).2.1 := by
  induction xs with
  | nil => intro acc seen app; simp [mergeLoop]
  | cons x rest ih =>
    intro acc seen app
    by_cases h : badKey (keyOf (ser x)) = true ∨ keyOf (ser x) ∈ seen
    · simpa [mergeLoop, if_pos h] using ih acc seen app
    · simp only [mergeLoop, if_neg h]
      exact fun k hk =>
        ih (acc ++ [ser x]) (keyOf (ser x) :: seen) true (List.mem_cons_of_mem _ hk)

/-- After the loop, every processed record's key is bad or in the final
seen set. -/
lemma mergeLoop_seen_sat (xs : List α) :
    ∀ (acc : List β) (seen : List κ) (app : Bool), ∀ x ∈ xs,
      badKey (keyOf (ser x)) = true ∨
        keyOf (ser x) ∈ (mergeLoop ser keyOf badKey acc seen app xs).2.1 := by
  induction xs with
  | nil => intro _ _ _ x hx; cases hx
  | cons y rest ih =>
    intro acc seen app x hx
    by_cases h : badKey (keyOf (ser y)) = true ∨ keyOf (ser y) ∈ seen
    · simp only [mergeLoop, if_pos h]
      rcases List.mem_cons.mp hx with rfl | hx
      · rcases h with h | h
        · exact Or.inl h
        · exact Or.inr (mergeLoop_seen_mono ser keyOf badKey rest acc seen app h)
      · exact ih acc seen app x hx
    · simp only [mergeLoop, if_neg h]
      rcases List.mem_cons.mp hx with rfl | hx
      · exact Or.inr
          (mergeLoop_seen_mono ser keyOf badKey rest (acc ++ [ser x])
            (keyOf (ser x) :: seen) true (List.mem_cons_self _ _))
      · exact ih (acc ++ [ser y]) (keyOf (ser y) :: seen) true x hx

/-- If the seen set is covered by the accumulator's keys, the final seen set
is covered by the final accumulator's keys. -/
lemma mergeLoop_seen_sub_acc (xs : List α) :
    ∀ (acc : List β) (seen : List κ) (app : Bool),
      (∀ k ∈ seen, k ∈ acc.map keyOf) →
      ∀ k ∈ (mergeLoop ser keyOf badKey acc seen app xs).2.1,
        k ∈ ((mergeLoop ser keyOf badKey acc seen app xs).1).map keyOf := by
  induction xs with
  | nil => intro acc seen app hinv; simpa [mergeLoop] using hinv
  | cons x rest ih =>
    intro acc seen app hinv
    by_cases h : badKey (keyOf (ser x)) = true ∨ keyOf (ser x) ∈ seen
    · simpa only [mergeLoop, if_pos h] using ih acc seen app hinv
    · simp only [mergeLoop, if_neg h]
      refine ih (acc ++ [ser x]) (keyOf (ser x) :: seen) true ?_
      intro k hk
      rcases List.mem_cons.mp hk with rfl | hk
      · simp
      · simpa using Or.inl (hinv k hk)

/-- If every incoming record's key is bad or already seen, the loop is the
identity on accumulator, seen set and appended flag. -/
lemma mergeLoop_all_skip (xs : List α) :
    ∀ (acc : List β) (seen : List κ) (app : Bool),
      (∀ x ∈ xs, badKey (keyOf (ser x)) = true ∨ keyOf (ser x) ∈ seen) →
      mergeLoop ser keyOf badKey acc seen app xs = (acc, seen, app) := by
  induction xs with
  | nil => intro acc seen app _; simp [mergeLoop]
  | cons x rest ih =>
    intro acc seen app hall
    have hx := hall x (List.mem_cons_self _ _)
    simp only [mergeLoop, if_pos hx]
    exact ih acc seen app fun y hy => hall y (List.mem_cons_of_mem _ hy)

/-- Once the appended flag is set it stays set. -/
lemma mergeLoop_flag_mono (xs : List α) :
    ∀ (acc : List β) (seen : List κ),
      (mergeLoop ser keyOf badKey acc seen true xs).2.2 = true := by
  induction xs with
  | nil => intro acc seen; simp [mergeLoop]
  | cons x rest ih =>
    intro acc seen
    by_cases h : badKey (keyOf (ser x)) = true ∨ keyOf (ser x) ∈ seen
    · simpa only [mergeLoop, if_pos h] using ih acc seen
    · simpa only [mergeLoop, if_neg h] using ih (acc ++ [ser x]) (keyOf (ser x) :: seen)

/-- If the loop reports nothing appended, it changed nothing. -/
lemma mergeLoop_flag_false (xs : List α) :
    ∀ (acc : List β) (seen : List κ),
      (mergeLoop ser keyOf badKey acc seen false xs).2.2 = false →
      mergeLoop ser keyOf badKey acc seen false xs = (acc, seen, false) := by
  induction xs with
  | nil => intro acc seen _; simp [mergeLoop]
  | cons x rest ih =>
    intro acc seen hflag
    by_cases h : badKey (keyOf (ser x)) = true ∨ keyOf (ser x) ∈ seen
    · simp only [mergeLoop, if_pos h] at hflag ⊢
      exact ih acc seen hflag
    · exfalso
      simp only [mergeLoop, if_neg h] at hflag
      rw [mergeLoop_flag_mono ser keyOf badKey rest _ _] at hflag
      exact Bool.noConfusion hflag

end MergeLoopLemmas

/-! ## Merge engine theorems -/

/-- C1: Merge is idempotent: re-running `merge_history` on its own output
with the same normalized trades and snapshots returns the output unchanged —
same trades, same snapshots, same order, same version. -/
theorem merge_history_idempotent (h : History) (ts : List NormTrade) (ss : List NormSnap) :
    merge_history (merge_history h ts ss) ts ss = merge_history h ts ss := by
  have hmem_t : ∀ x ∈ ts,
      ((serialize_trade x).ticket == "") = true ∨
        (serialize_trade x).ticket ∈ (merge_history h ts ss).trades.map TradeRec.ticket := by
    intro x hx
    rcases mergeLoop_seen_sat serialize_trade TradeRec.ticket (fun k => k == "") ts
        h.trades (h.trades.map TradeRec.ticket) false x hx with hbad | hseen
    · exact Or.inl hbad
    · right
      have hsub := mergeLoop_seen_sub_acc serialize_trade TradeRec.ticket (fun k => k == "")
        ts h.trades (h.trades.map TradeRec.ticket) false (fun k hk => hk) _ hseen
      simp only [merge_history]
      split
      · exact (((List.perm_insertionSort trade_le _).map TradeRec.ticket).mem_iff).mpr hsub
      · exact hsub
  have hmem_s : ∀ x ∈ ss,
      ((fun _ : Int => false) (serialize_snapshot x).timestamp) = true ∨
        (serialize_snapshot x).timestamp ∈
          (merge_history h ts ss).snapshots.map SnapRec.timestamp := by
    intro x hx
    rcases mergeLoop_seen_sat serialize_snapshot SnapRec.timestamp (fun _ => false) ss
        h.snapshots (h.snapshots.map SnapRec.timestamp) false x hx with hbad | hseen
    · exact Or.inl hbad
    · right
      have hsub := mergeLoop_seen_sub_acc serialize_snapshot SnapRec.timestamp (fun _ => false)
        ss h.snapshots (h.snapshots.map SnapRec.timestamp) false (fun k hk => hk) _ hseen
      simp only [merge_history]
      split
      · exact (((List.perm_insertionSort snap_le _).map SnapRec.timestamp).mem_iff).mpr hsub
      · exact hsub
  have hskip_t := mergeLoop_all_skip serialize_trade TradeRec.ticket (fun k => k == "") ts
    (merge_history h ts ss).trades ((merge_history h ts ss).trades.map TradeRec.ticket) false
    hmem_t
  have hskip_s := mergeLoop_all_skip serialize_snapshot SnapRec.timestamp (fun _ => false) ss
    (merge_history h ts ss).snapshots
    ((merge_history h ts ss).snapshots.map SnapRec.timestamp) false hmem_s
  have hver : (merge_history h ts ss).version = HISTORY_VERSION := rfl
  conv_lhs => rw [merge_history]
  rw [hskip_t, hskip_s, ← hver]
  rfl

/-- C2: Dedup is first-write-wins on both keys: every stored record survives
the merge intact, and for a key (trade ticket / snapshot timestamp) already
present in the history, the records carrying that key are exactly the ones
that were already stored — a new trade or snapshot with that key is
discarded, so the first-seen profit/balance/equity/floating values are
kept. -/
theorem merge_history_first_write_wins (h : History) (ts : List NormTrade)
    (ss : List NormSnap) :
    (∀ e ∈ h.trades, e ∈ (merge_history h ts ss).trades) ∧
    (∀ e ∈ h.snapshots, e ∈ (merge_history h ts ss).snapshots) ∧
    (∀ k, k ∈ h.trades.map TradeRec.ticket →
      List.Perm ((merge_history h ts ss).trades.filter (fun r => r.ticket == k))
        (h.trades.filter (fun r => r.ticket == k))) ∧
    (∀ k, k ∈ h.snapshots.map SnapRec.timestamp →
      List.Perm ((merge_history h ts ss).snapshots.filter (fun r => r.timestamp == k))
        (h.snapshots.filter (fun r => r.timestamp == k))) := by
  obtain ⟨extraT, heT, hpT⟩ := mergeLoop_acc_spec serialize_trade TradeRec.ticket
    (fun k => k == "") ts h.trades (h.trades.map TradeRec.ticket) false
  obtain ⟨extraS, heS, hpS⟩ := mergeLoop_acc_spec serialize_snapshot SnapRec.timestamp
    (fun _ => false) ss h.snapshots (h.snapshots.map SnapRec.timestamp) false
  refine ⟨?_, ?_, ?_, ?_⟩
  · intro e he
    simp only [merge_history]
    split
    · exact ((List.perm_insertionSort trade_le _).mem_iff).mpr
        (by rw [heT]; exact List.mem_append_left _ he)
    · rw [heT]; exact List.mem_append_left _ he
  · intro e he
    simp only [merge_history]
    split
    · exact ((List.perm_insertionSort snap_le _).mem_iff).mpr
        (by rw [heS]; exact List.mem_append_left _ he)
    · rw [heS]; exact List.mem_append_left _ he
  · intro k hk
    have hfilter : (h.trades ++ extraT).filter (fun r => r.ticket == k) =
        h.trades.filter (fun r => r.ticket == k) := by
      rw [List.filter_append]
      have : extraT.filter (fun r => r.ticket == k) = [] := by
        rw [List.filter_eq_nil_iff]
        intro r hr hrk
        exact (hpT r hr).1 (by rw [eq_of_beq hrk]; exact hk)
      rw [this, List.append_nil]
    simp only [merge_history]
    split
    · exact (((List.perm_insertionSort trade_le _).filter _).trans
        (by rw [heT, hfilter]))
    · rw [heT, hfilter]
  · intro k hk
    have hfilter : (h.snapshots ++ extraS).filter (fun r => r.timestamp == k) =
        h.snapshots.filter (fun r => r.timestamp == k) := by
      rw [List.filter_append]
      have : extraS.filter (fun r => r.timestamp == k) = [] := by
        rw [List.filter_eq_nil_iff]
        intro r hr hrk
        exact (hpS r hr).1 (by rw [eq_of_beq hrk]; exact hk)
      rw [this, List.append_nil]
    simp only [merge_history]
    split
    · exact (((List.perm_insertionSort snap_le _).filter _).trans
        (by rw [heS, hfilter]))
    · rw [heS, hfilter]


/-- C2 witness: a history holding ticket "T1" with profit 7 (and a snapshot
at second 50) merged with a new trade reusing ticket "T1" (profit 9) and a
new snapshot at the same second keeps exactly the stored records. -/
theorem merge_history_first_write_wins_witness :
    "T1" ∈ [mkTradeRec "T1" 7 10].map TradeRec.ticket ∧
    (50 : Int) ∈ [mkSnapRec 50 1].map SnapRec.timestamp ∧
    List.Perm
      ((merge_history
          { version := 1, trades := [mkTradeRec "T1" 7 10],
            snapshots := [mkSnapRec 50 1] }
          [mkNormTrade "T1" 9 { sec := 11, usec := 0 }]
          [mkNormSnap { sec := 50, usec := 0 } 2]).trades.filter
          (fun r => r.ticket == "T1"))
      ([mkTradeRec "T1" 7 10].filter (fun r => r.ticket == "T1")) ∧
    List.Perm
      ((merge_history
          { version := 1, trades := [mkTradeRec "T1" 7 10],
            snapshots := [mkSnapRec 50 1] }
          [mkNormTrade "T1" 9 { sec := 11, usec := 0 }]
          [mkNormSnap { sec := 50, usec := 0 } 2]).snapshots.filter
          (fun r => r.timestamp == 50))
      ([mkSnapRec 50 1].filter (fun r => r.timestamp == 50)) := by
  refine ⟨by decide, by decide, ?_, ?_⟩
  · exact (merge_history_first_write_wins _ _ _).2.2.1 "T1" (by decide)
  · exact (merge_history_first_write_wins _ _ _).2.2.2 50 (by decide)

/-- C3 counterexample: the claim quantifies over every input history,
including one loaded from a pre-existing file; for a history whose stored
trades are already out of order, a merge that appends nothing (here: no new
records at all) skips the re-sort entirely, so the result is not
non-decreasing by `closed_at`. -/
theorem merge_history_unsorted_input_stays_unsorted :
    ¬ List.Pairwise trade_le
      (merge_history
        { version := 1, trades := [mkTradeRec "A" 0 5, mkTradeRec "B" 0 3],
          snapshots := [] } [] []).trades := by
  decide

/-- C3 (amended): the merge re-sorts a list only when it appended to it, so
the sort invariant is conditional: for every input history whose trades are
already non-decreasing by `closed_at` and whose snapshots are already
non-decreasing by `timestamp` (as any history this program wrote is), both
lists are non-decreasing again after any merge. -/
theorem merge_history_preserves_sorted (h : History) (ts : List NormTrade)
    (ss : List NormSnap) (ht : List.Pairwise trade_le h.trades)
    (hs : List.Pairwise snap_le h.snapshots) :
    List.Pairwise trade_le (merge_history h ts ss).trades ∧
      List.Pairwise snap_le (merge_history h ts ss).snapshots := by
  constructor
  · simp only [merge_history]
    split
    · exact List.sorted_insertionSort trade_le _
    · rename_i hflag
      rw [mergeLoop_flag_false serialize_trade TradeRec.ticket (fun k => k == "") ts
        h.trades (h.trades.map TradeRec.ticket) (by simpa using hflag)]
      exact ht
  · simp only [merge_history]
    split
    · exact List.sorted_insertionSort snap_le _
    · rename_i hflag
      rw [mergeLoop_flag_false serialize_snapshot SnapRec.timestamp (fun _ => false) ss
        h.snapshots (h.snapshots.map SnapRec.timestamp) (by simpa using hflag)]
      exact hs

/-- C3 witness: merging a new trade into an already-sorted history yields
sorted trades and snapshots. -/
theorem merge_history_preserves_sorted_witness :
    List.Pairwise trade_le
      (merge_history
        { version := 1, trades := [mkTradeRec "A" 0 3, mkTradeRec "B" 0 5],
          snapshots := [mkSnapRec 7 1] }
        [mkNormTrade "C" 1 { sec := 4, usec := 0 }] []).trades ∧
    List.Pairwise snap_le
      (merge_history
        { version := 1, trades := [mkTradeRec "A" 0 3, mkTradeRec "B" 0 5],
          snapshots := [mkSnapRec 7 1] }
        [mkNormTrade "C" 1 { sec := 4, usec := 0 }] []).snapshots :=
  merge_history_preserves_sorted _ _ _ (by decide) (by decide)

/-- C10: snapshot dedup works at one-second precision: serialization
truncates sub-second detail, so when two incoming snapshots fall within the
same UTC second (equal `sec`, any `usec`, any balances), merging both is the
same as merging only the first — the second is silently discarded. -/
theorem merge_history_snapshot_second_truncation (h : History) (s1 s2 : NormSnap)
    (hsec : s1.timestamp.sec = s2.timestamp.sec) :
    merge_history h [] [s1, s2] = merge_history h [] [s1] := by
  have hkey : (serialize_snapshot s2).timestamp = (serialize_snapshot s1).timestamp := by
    simp [serialize_snapshot, isoformat, hsec]
  by_cases hmem : (serialize_snapshot s1).timestamp ∈ h.snapshots.map SnapRec.timestamp
  · simp [merge_history, mergeLoop, hmem, hkey]
  · simp [merge_history, mergeLoop, hmem, hkey]

/-- C10 witness: two snapshots inside second 100 (microseconds 1 and 2,
different balances) merge to the same history as the first alone. -/
theorem merge_history_snapshot_second_truncation_witness :
    ({ sec := 100, usec := 1 } : Timestamp).sec =
      ({ sec := 100, usec := 2 } : Timestamp).sec ∧
    merge_history { version := 1, trades := [], snapshots := [] } []
        [mkNormSnap { sec := 100, usec := 1 } 5, mkNormSnap { sec := 100, usec := 2 } 9] =
      merge_history { version := 1, trades := [], snapshots := [] } []
        [mkNormSnap { sec := 100, usec := 1 } 5] :=
  ⟨rfl, merge_history_snapshot_second_truncation _ _ _ rfl⟩

/-! ## Aggregation theorems -/

/-- Rounding an integer changes nothing. -/
lemma roundHalfEven_intCast (z : ℤ) : roundHalfEven (z : ℚ) = z := by
  simp [roundHalfEven]

/-- `round(q, n)` fixes integers. -/
lemma pyRound_intCast (n : ℕ) (z : ℤ) : pyRound n (z : ℚ) = z := by
  unfold pyRound
  have h : ((z : ℚ) * 10 ^ n) = ((z * 10 ^ n : ℤ) : ℚ) := by push_cast; ring
  rw [h, roundHalfEven_intCast]
  push_cast
  field_simp

/-- `round(0.0, n) = 0.0`. -/
lemma pyRound_zero (n : ℕ) : pyRound n 0 = 0 := by
  simpa using pyRound_intCast n 0

/-- C5: the overall summary agrees with its reference definition on every
trade list — count, profit = rounded sum, wins = count of positive profits,
losses = count of negative profits, win rate = wins/count×100 rounded — and
the empty list yields the all-zero summary (win rate 0.0, no division
error). -/
theorem summarize_trades_matches_reference :
    (∀ ts : List MTrade, summarize_trades ts = summarize_trades_reference ts) ∧
    summarize_trades [] =
      { profit := 0, trades := 0, wins := 0, losses := 0, win_rate := 0 } := by
  constructor
  · intro ts
    cases ts with
    | nil =>
      simp [summarize_trades, summarize_trades_reference, pyRound_zero]
    | cons t rest =>
      simp [summarize_trades, summarize_trades_reference]
  · rfl

/-- C7: exit classification follows the strict priority order with first
match winning: a truthy `tp_label` yields "tp" whatever the other fields
hold; any of the three take-profit checks (label, exit-reason hints, comment
hints) forces "tp" before any stop-loss check runs; and a trade matching no
rule classifies as "manual". -/
theorem determine_exit_type_priority :
    (∀ t : MTrade, truthyStr t.tp_label = true →
      determine_exit_type (some t) = "tp") ∧
    (∀ t : MTrade,
      truthyStr t.tp_label = true ∨
        contains_hint t.exit_reason TP_REASON_HINTS = true ∨
        contains_hint t.comment TP_COMMENT_HINTS = true →
      determine_exit_type (some t) = "tp") ∧
    (∀ t : MTrade, truthyStr t.tp_label = false →
      contains_hint t.exit_reason TP_REASON_HINTS = false →
      contains_hint t.comment TP_COMMENT_HINTS = false →
      truthyStr t.sl_label = false →
      contains_hint t.exit_reason SL_REASON_HINTS = false →
      contains_hint t.comment SL_COMMENT_HINTS = false →
      determine_exit_type (some t) = "manual") := by
  refine ⟨?_, ?_, ?_⟩
  · intro t h
    simp [determine_exit_type, h]
  · intro t h
    rcases h with h | h | h <;> simp [determine_exit_type, h]
  · intro t h1 h2 h3 h4 h5 h6
    simp [determine_exit_type, h1, h2, h3, h4, h5, h6]

/-- C7 witness: a trade with `tp_label` set and a comment carrying a
stop-loss hint still classifies "tp". -/
theorem determine_exit_type_priority_witness :
    determine_exit_type
        (some { closed_at := { sec := 0, usec := 0 }, tp_label := some "TP1",
                comment := some "stop loss hit" }) = "tp" :=
  determine_exit_type_priority.1 _ (by decide)

/-- C6: ranking three symbols with profits 100, 100, −50 is deterministic
and stable: the tied symbols get ranks 1 and 2 in encounter order and the
loser rank 3; over only 3 groups the top-5 and bottom-5 lists both contain
all three, the bottom list ascending by its assigned ranks 1, 2, 3. -/
theorem build_symbol_lists_deterministic :
    build_symbol_lists
        [{ closed_at := { sec := 0, usec := 0 }, symbol := some "AAA", profit := 100 },
         { closed_at := { sec := 1, usec := 0 }, symbol := some "BBB", profit := 100 },
         { closed_at := { sec := 2, usec := 0 }, symbol := some "CCC", profit := -50 }] =
      ([{ symbol := some "AAA", profit := 100, trades := 1, wins := 1, losses := 0,
          rank := 1 },
        { symbol := some "BBB", profit := 100, trades := 1, wins := 1, losses := 0,
          rank := 2 },
        { symbol := some "CCC", profit := -50, trades := 1, wins := 0, losses := 1,
          rank := 3 }],
       [{ symbol := some "AAA", profit := 100, trades := 1, wins := 1, losses := 0,
          rank := 1 },
        { symbol := some "BBB", profit := 100, trades := 1, wins := 1, losses := 0,
          rank := 2 },
        { symbol := some "CCC", profit := -50, trades := 1, wins := 0, losses := 1,
          rank := 3 }]) := by
  norm_num [build_symbol_lists, addTradeStat, bumpStat, assignRanks, symbolStat_ge,
    rankStat_le, List.insertionSort, List.orderedInsert]

/-- The fold inside Python `max(..., key=...)` returns the first element
attaining the maximal key: the running value is replaced only on a strictly
greater key. -/
lemma foldl_pyMax_spec (key : α → ℚ) (xs : List α) : ∀ b : α,
    IsFirstMaxBy key (b :: xs)
      (xs.foldl (fun c t => if key c < key t then t else c) b) := by
  induction xs with
  | nil =>
    intro b
    exact ⟨[], [], rfl, by simp, by simp⟩
  | cons y ys ih =>
    intro b
    simp only [List.foldl_cons]
    by_cases h : key b < key y
    · rw [if_pos h]
      obtain ⟨l1, l2, heq, hlt, hle⟩ := ih y
      have hyM := hle y (List.mem_cons_self _ _)
      refine ⟨b :: l1, l2, by rw [List.cons_append, ← heq], ?_, ?_⟩
      · intro x hx
        rcases List.mem_cons.mp hx with rfl | hx
        · exact lt_of_lt_of_le h hyM
        · exact hlt x hx
      · intro x hx
        rcases List.mem_cons.mp hx with rfl | hx
        · exact le_of_lt (lt_of_lt_of_le h hyM)
        · exact hle x hx
    · rw [if_neg h]
      obtain ⟨l1, l2, heq, hlt, hle⟩ := ih b
      have hbM := hle b (List.mem_cons_self _ _)
      cases l1 with
      | nil =>
        simp only [List.nil_append] at heq
        obtain ⟨hM, -⟩ := List.cons_eq_cons.mp heq
        refine ⟨[], y :: ys, ?_, by simp, ?_⟩
        · simpa using congrArg (fun z => z :: y :: ys) hM
        · intro x hx
          rcases List.mem_cons.mp hx with rfl | hx
          · exact hbM
          · rcases List.mem_cons.mp hx with rfl | hx
            · exact le_trans (le_of_not_lt h) hbM
            · exact hle x (List.mem_cons_of_mem _ hx)
      | cons a l1' =>
        simp only [List.cons_append] at heq
        obtain ⟨h1, h2⟩ := List.cons_eq_cons.mp heq
        subst h1
        refine ⟨b :: y :: l1', l2, ?_, ?_, ?_⟩
        · simp only [List.cons_append]
          rw [← h2]
        · intro x hx
          rcases List.mem_cons.mp hx with rfl | hx
          · exact hlt x (List.mem_cons_self _ _)
          · rcases List.mem_cons.mp hx with rfl | hx
            · exact lt_of_le_of_lt (le_of_not_lt h) (hlt b (List.mem_cons_self _ _))
            · exact hlt x (List.mem_cons_of_mem _ hx)
        · intro x hx
          rcases List.mem_cons.mp hx with rfl | hx
          · exact hbM
          · rcases List.mem_cons.mp hx with rfl | hx
            · exact le_trans (le_of_not_lt h) hbM
            · exact hle x (List.mem_cons_of_mem _ hx)

/-- The fold inside Python `min(..., key=...)` returns the first element
attaining the minimal key. -/
lemma foldl_pyMin_spec (key : α → ℚ) (xs : List α) : ∀ b : α,
    IsFirstMinBy key (b :: xs)
      (xs.foldl (fun c t => if key t < key c then t else c) b) := by
  induction xs with
  | nil =>
    intro b
    exact ⟨[], [], rfl, by simp, by simp⟩
  | cons y ys ih =>
    intro b
    simp only [List.foldl_cons]
    by_cases h : key y < key b
    · rw [if_pos h]
      obtain ⟨l1, l2, heq, hlt, hle⟩ := ih y
      have hyM := hle y (List.mem_cons_self _ _)
      refine ⟨b :: l1, l2, by rw [List.cons_append, ← heq], ?_, ?_⟩
      · intro x hx
        rcases List.mem_cons.mp hx with rfl | hx
        · exact lt_of_le_of_lt hyM h
        · exact hlt x hx
      · intro x hx
        rcases List.mem_cons.mp hx with rfl | hx
        · exact le_of_lt (lt_of_le_of_lt hyM h)
        · exact hle x hx
    · rw [if_neg h]
      obtain ⟨l1, l2, heq, hlt, hle⟩ := ih b
      have hbM := hle b (List.mem_cons_self _ _)
      cases l1 with
      | nil =>
        simp only [List.nil_append] at heq
        obtain ⟨hM, -⟩ := List.cons_eq_cons.mp heq
        refine ⟨[], y :: ys, ?_, by simp, ?_⟩
        · simpa using congrArg (fun z => z :: y :: ys) hM
        · intro x hx
          rcases List.mem_cons.mp hx with rfl | hx
          · exact hbM
          · rcases List.mem_cons.mp hx with rfl | hx
            · exact le_trans hbM (le_of_not_lt h)
            · exact hle x (List.mem_cons_of_mem _ hx)
      | cons a l1' =>
        simp only [List.cons_append] at heq
        obtain ⟨h1, h2⟩ := List.cons_eq_cons.mp heq
        subst h1
        refine ⟨b :: y :: l1', l2, ?_, ?_, ?_⟩
        · simp only [List.cons_append]
          rw [← h2]
        · intro x hx
          rcases List.mem_cons.mp hx with rfl | hx
          · exact hlt x (List.mem_cons_self _ _)
          · rcases List.mem_cons.mp hx with rfl | hx
            · exact lt_of_lt_of_le (hlt b (List.mem_cons_self _ _)) (le_of_not_lt h)
            · exact hlt x (List.mem_cons_of_mem _ hx)
        · intro x hx
          rcases List.mem_cons.mp hx with rfl | hx
          · exact hbM
          · rcases List.mem_cons.mp hx with rfl | hx
            · exact le_trans hbM (le_of_not_lt h)
            · exact hle x (List.mem_cons_of_mem _ hx)

/-- `max(l, key, default=None)` is `None` exactly on the empty list. -/
lemma pyMaxBy_eq_none_iff (key : α → ℚ) (l : List α) :
    pyMaxBy key l = none ↔ l = [] := by
  cases l <;> simp [pyMaxBy]

/-- `min(l, key, default=None)` is `None` exactly on the empty list. -/
lemma pyMinBy_eq_none_iff (key : α → ℚ) (l : List α) :
    pyMinBy key l = none ↔ l = [] := by
  cases l <;> simp [pyMinBy]

/-- Whatever `max(l, key, default=None)` returns is the first maximum. -/
lemma pyMaxBy_spec (key : α → ℚ) (l : List α) (m : α)
    (h : pyMaxBy key l = some m) : IsFirstMaxBy key l m := by
  cases l with
  | nil => cases h
  | cons x xs =>
    have h' : xs.foldl (fun c t => if key c < key t then t else c) x = m := by
      simpa [pyMaxBy] using h
    rw [← h']
    exact foldl_pyMax_spec key xs x

/-- Whatever `min(l, key, default=None)` returns is the first minimum. -/
lemma pyMinBy_spec (key : α → ℚ) (l : List α) (m : α)
    (h : pyMinBy key l = some m) : IsFirstMinBy key l m := by
  cases l with
  | nil => cases h
  | cons x xs =>
    have h' : xs.foldl (fun c t => if key t < key c then t else c) x = m := by
      simpa [pyMinBy] using h
    rw [← h']
    exact foldl_pyMin_spec key xs x

/-- C4: for each window span N ∈ {7, 30, 365} days the window holds exactly
the trades with `closed_at ≥ now − N days`, its summary is the overall
summary of that filtered set, and the best (worst) trade is the first trade
of maximal (minimal) profit in the time-ascending window, absent exactly
when the window is empty; concretely, trades closed at now−1d (+10),
now−10d (−5) and now−400d (+1000) give 7/30/365-day profit sums of 10, 5
and 5. -/
theorem build_windows_correct (trades : List MTrade) (now : Timestamp) :
    (∀ d, d ∈ [7, 30, 365] →
      (∀ t, t ∈ trades.filter (fun t => decide (tsLe (tsSubDays now d) t.closed_at)) ↔
          t ∈ trades ∧ tsLe (tsSubDays now d) t.closed_at) ∧
      (build_window d now trades).summary =
        summarize_trades
          (trades.filter (fun t => decide (tsLe (tsSubDays now d) t.closed_at))) ∧
      ((build_window d now trades).best_trade = none ↔
        trades.filter (fun t => decide (tsLe (tsSubDays now d) t.closed_at)) = []) ∧
      ((build_window d now trades).worst_trade = none ↔
        trades.filter (fun t => decide (tsLe (tsSubDays now d) t.closed_at)) = []) ∧
      (trades.filter (fun t => decide (tsLe (tsSubDays now d) t.closed_at)) ≠ [] →
        (∃ b, IsFirstMaxBy MTrade.profit
            (trades.filter (fun t => decide (tsLe (tsSubDays now d) t.closed_at))) b ∧
          (build_window d now trades).best_trade =
            summarize_single_trade false (some b)) ∧
        (∃ w, IsFirstMinBy MTrade.profit
            (trades.filter (fun t => decide (tsLe (tsSubDays now d) t.closed_at))) w ∧
          (build_window d now trades).worst_trade =
            summarize_single_trade false (some w)))) ∧
    (build_windows now
        [exampleTrade (tsSubDays now 400) 1000, exampleTrade (tsSubDays now 10) (-5),
          exampleTrade (tsSubDays now 1) 10]).map
        (fun p => (p.1, p.2.summary.profit)) =
      [("7d", 10), ("30d", 5), ("365d", 5)] := by
  have hsst : ∀ x : Option MTrade, summarize_single_trade false x = none ↔ x = none := by
    intro x
    cases x <;> simp [summarize_single_trade]
  constructor
  · intro d _
    have hb : (build_window d now trades).best_trade =
        summarize_single_trade false (pyMaxBy MTrade.profit
          (trades.filter (fun t => decide (tsLe (tsSubDays now d) t.closed_at)))) := rfl
    have hw : (build_window d now trades).worst_trade =
        summarize_single_trade false (pyMinBy MTrade.profit
          (trades.filter (fun t => decide (tsLe (tsSubDays now d) t.closed_at)))) := rfl
    refine ⟨?_, rfl, ?_, ?_, ?_⟩
    · intro t
      simp [List.mem_filter]
    · rw [hb, hsst]
      exact pyMaxBy_eq_none_iff _ _
    · rw [hw, hsst]
      exact pyMinBy_eq_none_iff _ _
    · intro hne
      constructor
      · cases hmax : pyMaxBy MTrade.profit
            (trades.filter (fun t => decide (tsLe (tsSubDays now d) t.closed_at))) with
        | none => exact absurd ((pyMaxBy_eq_none_iff _ _).mp hmax) hne
        | some b => exact ⟨b, pyMaxBy_spec _ _ _ hmax, by rw [hb, hmax]⟩
      · cases hmin : pyMinBy MTrade.profit
            (trades.filter (fun t => decide (tsLe (tsSubDays now d) t.closed_at))) with
        | none => exact absurd ((pyMinBy_eq_none_iff _ _).mp hmin) hne
        | some w => exact ⟨w, pyMinBy_spec _ _ _ hmin, by rw [hw, hmin]⟩
  · have p10 : pyRound 2 ((10 : ℚ)) = 10 := by simpa using pyRound_intCast 2 10
    have p5 : pyRound 2 ((5 : ℚ)) = 5 := by simpa using pyRound_intCast 2 5
    have c74 : decide (tsLe (tsSubDays now 7) (tsSubDays now 400)) = false := by
      rw [decide_eq_false_iff_not]
      simp only [tsLe, tsSubDays, not_or, not_and, not_lt]
      constructor
      · omega
      · intro h
        omega
    have c710 : decide (tsLe (tsSubDays now 7) (tsSubDays now 10)) = false := by
      rw [decide_eq_false_iff_not]
      simp only [tsLe, tsSubDays, not_or, not_and, not_lt]
      constructor
      · omega
      · intro h
        omega
    have c71 : decide (tsLe (tsSubDays now 7) (tsSubDays now 1)) = true := by
      rw [decide_eq_true_eq]
      exact Or.inl (by simp only [tsSubDays]; omega)
    have c304 : decide (tsLe (tsSubDays now 30) (tsSubDays now 400)) = false := by
      rw [decide_eq_false_iff_not]
      simp only [tsLe, tsSubDays, not_or, not_and, not_lt]
      constructor
      · omega
      · intro h
        omega
    have c3010 : decide (tsLe (tsSubDays now 30) (tsSubDays now 10)) = true := by
      rw [decide_eq_true_eq]
      exact Or.inl (by simp only [tsSubDays]; omega)
    have c301 : decide (tsLe (tsSubDays now 30) (tsSubDays now 1)) = true := by
      rw [decide_eq_true_eq]
      exact Or.inl (by simp only [tsSubDays]; omega)
    have c3654 : decide (tsLe (tsSubDays now 365) (tsSubDays now 400)) = false := by
      rw [decide_eq_false_iff_not]
      simp only [tsLe, tsSubDays, not_or, not_and, not_lt]
      constructor
      · omega
      · intro h
        omega
    have c36510 : decide (tsLe (tsSubDays now 365) (tsSubDays now 10)) = true := by
      rw [decide_eq_true_eq]
      exact Or.inl (by simp only [tsSubDays]; omega)
    have c3651 : decide (tsLe (tsSubDays now 365) (tsSubDays now 1)) = true := by
      rw [decide_eq_true_eq]
      exact Or.inl (by simp only [tsSubDays]; omega)
    simp only [build_windows, WINDOWS, List.map_cons, List.map_nil, build_window,
      exampleTrade, List.filter_cons, List.filter_nil, c74, c710, c71, c304, c3010,
      c301, c3654, c36510, c3651, if_true, if_false, Bool.false_eq_true, ite_false,
      ite_true, summarize_trades]
    norm_num [p10, p5]

/-- C4 witness: in a 7-day window (now = second 100) holding one trade of
profit 3, the best and worst trades exist and are that first maximal/minimal
trade. -/
theorem build_windows_correct_witness :
    (∃ b, IsFirstMaxBy MTrade.profit
        ([exampleTrade { sec := 0, usec := 0 } 3].filter
          (fun t => decide (tsLe (tsSubDays { sec := 100, usec := 0 } 7) t.closed_at))) b ∧
      (build_window 7 { sec := 100, usec := 0 }
          [exampleTrade { sec := 0, usec := 0 } 3]).best_trade =
        summarize_single_trade false (some b)) ∧
    (∃ w, IsFirstMinBy MTrade.profit
        ([exampleTrade { sec := 0, usec := 0 } 3].filter
          (fun t => decide (tsLe (tsSubDays { sec := 100, usec := 0 } 7) t.closed_at))) w ∧
      (build_window 7 { sec := 100, usec := 0 }
          [exampleTrade { sec := 0, usec := 0 } 3]).worst_trade =
        summarize_single_trade false (some w)) :=
  ((build_windows_correct [exampleTrade { sec := 0, usec := 0 } 3]
      { sec := 100, usec := 0 }).1 7 (by simp)).2.2.2.2 (by decide)

/-- A numeric field that is absent or a JSON number never makes `float`
raise, and the absent case yields the 0.0 default. -/
lemma pyFloatField_ok (v : Option PyVal) (hv : numFieldOk v = true) :
    ∃ q, pyFloatField v = some q ∧ (v = none → q = 0) := by
  cases v with
  | none => exact ⟨0, rfl, fun _ => rfl⟩
  | some pv =>
    cases pv with
    | num q => exact ⟨q, rfl, by simp⟩
    | str s => simp [numFieldOk] at hv
    | null => simp [numFieldOk] at hv

/-- A timestamp field that is not a malformed string never makes
`parse_iso_datetime` raise; the falsy cases yield `None`. -/
lemma parseIsoField_ok (v : Option TimeVal) (hv : timeFieldOk v = true) :
    ∃ o, parseIsoField v = some o ∧ (timeFieldFalsy v = true → o = none) := by
  cases v with
  | none => exact ⟨none, rfl, fun _ => rfl⟩
  | some tv =>
    cases tv with
    | iso t => exact ⟨some t, rfl, by simp [timeFieldFalsy]⟩
    | bad s => simp [timeFieldOk] at hv
    | empty => exact ⟨none, rfl, fun _ => rfl⟩
    | null => exact ⟨none, rfl, fun _ => rfl⟩

/-- C8 counterexample: the claim promises a record "without raising an
error" for every entry with a non-numeric or unparseable field, but
`normalize_trade` raises: on a `null` volume (`float(None)` → TypeError), on
a non-numeric volume string (`float("abc")` → ValueError), and on a
malformed non-empty closed_at string (`fromisoformat` → ValueError). -/
theorem normalize_trade_raises_on_bad_fields :
    normalize_trade
        { volume := some PyVal.null, log_timestamp := { sec := 0, usec := 0 } } = none ∧
    normalize_trade
        { volume := some (PyVal.str "abc"),
          log_timestamp := { sec := 0, usec := 0 } } = none ∧
    normalize_trade
        { closed_at := some (TimeVal.bad "not a date"),
          log_timestamp := { sec := 0, usec := 0 } } = none := by
  refine ⟨rfl, ?_, rfl⟩
  rfl

/-- C8 (amended): the normalizers return a record without raising provided
every numeric field is absent or a JSON number and every timestamp field is
absent, null, empty or a valid ISO string; numeric fields then default to
0.0 exactly when absent (a present non-numeric value raises instead of
defaulting), and the record timestamp falls back to the enclosing log line's
timestamp exactly when the field is missing, null or empty (an unparseable
non-empty string raises instead of falling back). -/
theorem normalize_lenient :
    (∀ e : RawEntry, numFieldOk e.volume = true → numFieldOk e.profit = true →
      timeFieldOk e.closed_at = true → timeFieldOk e.opened_at = true →
      ∃ r, normalize_trade e = some r ∧
        (e.volume = none → r.volume = 0) ∧
        (e.profit = none → r.profit = 0) ∧
        (timeFieldFalsy e.closed_at = true → r.closed_at = e.log_timestamp)) ∧
    (∀ e : RawEntry, numFieldOk e.balance = true → numFieldOk e.equity = true →
      numFieldOk e.floating = true → timeFieldOk e.timestamp = true →
      ∃ r, normalize_snapshot e = some r ∧
        (e.balance = none → r.balance = 0) ∧
        (e.equity = none → r.equity = 0) ∧
        (e.floating = none → r.floating = 0) ∧
        (timeFieldFalsy e.timestamp = true → r.timestamp = e.log_timestamp)) := by
  constructor
  · intro e hv hp hc ho
    obtain ⟨oc, hoc, hocf⟩ := parseIsoField_ok e.closed_at hc
    obtain ⟨oo, hoo, -⟩ := parseIsoField_ok e.opened_at ho
    obtain ⟨qv, hqv, hqv0⟩ := pyFloatField_ok e.volume hv
    obtain ⟨qp, hqp, hqp0⟩ := pyFloatField_ok e.profit hp
    refine ⟨{ ticket := pyStrOfTicket e.ticket,
              symbol := e.symbol.getD (some "UNKNOWN"),
              volume := qv, profit := qp,
              order_type := pyOrStr (pyOrStr e.order_type e.direction) e.side,
              comment := pyOrStr e.comment e.label, opened_at := oo,
              closed_at := oc.getD e.log_timestamp, tp_label := e.tp_label,
              sl_label := e.sl_label }, ?_, fun h => hqv0 h, fun h => hqp0 h, ?_⟩
    · simp [normalize_trade, hoc, hoo, hqv, hqp]
    · intro h
      show oc.getD e.log_timestamp = e.log_timestamp
      rw [hocf h]
      rfl
  · intro e hb he hf ht
    obtain ⟨ot, hot, hotf⟩ := parseIsoField_ok e.timestamp ht
    obtain ⟨qb, hqb, hqb0⟩ := pyFloatField_ok e.balance hb
    obtain ⟨qe, hqe, hqe0⟩ := pyFloatField_ok e.equity he
    obtain ⟨qf, hqf, hqf0⟩ := pyFloatField_ok e.floating hf
    refine ⟨{ timestamp := ot.getD e.log_timestamp, balance := qb, equity := qe,
              floating := qf }, ?_, fun h => hqb0 h, fun h => hqe0 h,
      fun h => hqf0 h, ?_⟩
    · simp [normalize_snapshot, hot, hqb, hqe, hqf]
    · intro h
      show ot.getD e.log_timestamp = e.log_timestamp
      rw [hotf h]
      rfl

/-- C8 witness: an entry with every optional field missing normalizes (as a
trade and as a snapshot) to a record with volume/profit (resp.
balance/equity/floating) 0.0 and the log-line timestamp. -/
theorem normalize_lenient_witness :
    (∃ r, normalize_trade { log_timestamp := { sec := 42, usec := 0 } } = some r ∧
      ((none : Option PyVal) = none → r.volume = 0) ∧
      ((none : Option PyVal) = none → r.profit = 0) ∧
      (timeFieldFalsy none = true → r.closed_at = { sec := 42, usec := 0 })) ∧
    (∃ r, normalize_snapshot { log_timestamp := { sec := 42, usec := 0 } } = some r ∧
      ((none : Option PyVal) = none → r.balance = 0) ∧
      ((none : Option PyVal) = none → r.equity = 0) ∧
      ((none : Option PyVal) = none → r.floating = 0) ∧
      (timeFieldFalsy none = true → r.timestamp = { sec := 42, usec := 0 })) :=
  ⟨normalize_lenient.1 { log_timestamp := { sec := 42, usec := 0 } } rfl rfl rfl rfl,
    normalize_lenient.2 { log_timestamp := { sec := 42, usec := 0 } } rfl rfl rfl rfl⟩

/-- C9: a source entry with no ticket field is NOT discarded:
`str(entry.get("ticket"))` turns the missing ticket into the non-empty
literal string "None", which passes the merge guard, so the trade is stored
with ticket "None" — whereas an entry whose ticket is the empty string is
discarded as the claim describes. -/
theorem missing_ticket_trade_is_stored :
    ((normalize_trade
        { profit := some (PyVal.num 1),
          log_timestamp := { sec := 0, usec := 0 } }).map
      (fun r => (merge_history { version := 1, trades := [], snapshots := [] }
          [r] []).trades.map TradeRec.ticket)) = some ["None"] ∧
    ((normalize_trade
        { ticket := some (some ""), profit := some (PyVal.num 1),
          log_timestamp := { sec := 0, usec := 0 } }).map
      (fun r => (merge_history { version := 1, trades := [], snapshots := [] }
          [r] []).trades.map TradeRec.ticket)) = some [] := by
  constructor
  · rfl
  · rfl
